import Mathlib

set_option autoImplicit false

/-!
Verification development for the stylesheet lint visitor
(src/src/services/lint.ts of vscode-panorama-css-languageservice).

The TypeScript code is shallowly embedded: each lint check becomes a pure
Lean function from its inputs (the relevant syntax-node data, the
knowledge-base callbacks, the user-declared valid-property set, the
settings-resolved severity per rule) to the list of emitted diagnostic
markers, plus the boolean "descend into children" result where the source
returns one.  Syntax nodes are identified by natural-number ids; the raw
document text is represented by the text each node spans (the source only
uses it for single-character lookups at a node's offset).
-/

/-! ### JavaScript string primitives, modelled over the character list.
The names handled by the linter are ASCII, so toLowerCase is ASCII
lowercasing and charAt probes are lookups in the char list. -/

/-- ASCII lowercasing of one character (models toLowerCase per character). -/
def asciiLower (c : Char) : Char :=
  if 'A' ≤ c ∧ c ≤ 'Z' then Char.ofNat (c.toNat + 32) else c

/-- Models JavaScript's s.toLowerCase() for the ASCII names the linter meets. -/
def strLower (s : String) : String := String.mk (s.data.map asciiLower)

/-- Models the charAt(0) === c probes of the source (also used for
documentText.charAt(node.offset), which reads the first character of the
text the node spans). For the empty string charAt yields "" which differs
from every single character, hence false. -/
def firstCharIs (s : String) (c : Char) : Bool :=
  match s.data with
  | [] => false
  | d :: _ => d = c

/-- Models the charAt(1) === c probes of the source. -/
def secondCharIs (s : String) (c : Char) : Bool :=
  match s.data with
  | _ :: d :: _ => d = c
  | _ => false

/-- Models JavaScript's s.substr(1). -/
def strTail (s : String) : String := String.mk s.data.tail

/-! ### Rules, markers and collaborators -/

/-- The rule identifiers of lintRules.ts used by the embedded checks.
The source names IncludeStandardPropertyWhenUsingVendorPrefix and
AllVendorPrefixes appear here as includeStandardProperty and
allVendorPrefixes. -/
inductive RuleId where
  | unknownAtRules
  | duplicateDeclarations
  | includeStandardProperty
  | allVendorPrefixes
  | unknownProperty
  | unknownVendorSpecificProperty
  | ieStarHack
  | zeroWithUnit
  | hexColorLength
  | argsInColorFunction
  deriving DecidableEq

/-- A diagnostic marker: offending node (by id), rule, settings-resolved
severity level (a bitmask value), optional detail string.  Mirrors
nodes.Marker as constructed by LintVisitor.addEntry. -/
structure Marker where
  node : Nat
  rule : RuleId
  level : Nat
  details : Option String
  deriving DecidableEq

/-- The property/at-rule knowledge base consumed by the linter
(CSSDataManager), reduced to the three presence queries the source uses. -/
structure CSSDataManager where
  isKnownProperty : String → Bool
  isStandardProperty : String → Bool
  getAtDirective : String → Bool

/-- One entry of NodesByRootMap: the ordered raw names seen under a root
and the node ids to attach completion-phase diagnostics to. -/
structure RootEntry where
  nodes : List Nat
  names : List String
  deriving DecidableEq

/-- NodesByRootMap.add: find-or-create the entry of the root key, push the
name, and push the node when one is given.  The JavaScript object keyed by
strings is modelled as an insertion-ordered association list. -/
def addToMap (m : List (String × RootEntry)) (root : String) (name : String)
    (node : Option Nat) : List (String × RootEntry) :=
  match m with
  | [] => [(root, ⟨node.toList, [name]⟩)]
  | (k, e) :: rest =>
    if k = root then (k, ⟨e.nodes ++ node.toList, e.names ++ [name]⟩) :: rest
    else (k, e) :: addToMap rest root name node

/-- LintVisitor.getEntries: filter the accumulated markers to those whose
level intersects the severity bitmask. -/
def getEntries (warnings : List Marker) (filter : Nat) : List Marker :=
  warnings.filter (fun entry => (entry.level &&& filter) != 0)

/-! ### getMissingNames -/

/-- One step of the matching loop of LintVisitor.getMissingNames: null out
the first clone slot equal to the actual name.  JavaScript indexOf returns
-1 when absent; Lean's List.indexOf returns the length, so the guard
k !== -1 becomes k ≠ length. -/
def nullFirst (clone : List (Option String)) (a : String) : List (Option String) :=
  let k := clone.indexOf (some a)
  if k ≠ clone.length then clone.set k none else clone

/-- One step of the rendering loop of LintVisitor.getMissingNames.  The
JavaScript truthiness test if (curr) skips both null slots and the empty
string. -/
def renderStep (result : Option String) (curr : Option String) : Option String :=
  match curr with
  | none => result
  | some s =>
    if s = "" then result
    else
      match result with
      | none => some ("\x27" ++ s ++ "\x27")
      | some r => some (r ++ ", \x27" ++ s ++ "\x27")

/-- LintVisitor.getMissingNames: clone the expected names, null out one
clone slot per actual occurrence, then fold the surviving names into the
localized "{0}, '{1}'" chain. -/
def getMissingNames (expected : List String) (actual : List String) : Option String :=
  (actual.foldl nullFirst (expected.map some)).foldl renderStep none

/-- Recursive form of nullFirst, used to reason about it. -/
def nullFirstRec (clone : List (Option String)) (a : String) : List (Option String) :=
  match clone with
  | [] => []
  | x :: xs => if x = some a then none :: xs else x :: nullFirstRec xs a

/-- The rendering step as the claim words it: first missing name quoted
alone, each subsequent missing name appended as "{prior}, '{next}'". -/
def renderNext (result : Option String) (curr : String) : Option String :=
  match result with
  | none => some ("\x27" ++ curr ++ "\x27")
  | some r => some (r ++ ", \x27" ++ curr ++ "\x27")

/-- The claim's description of getMissingNames, stated independently of the
imperative clone-and-null loop: the missing names are the expected names
left after erasing one occurrence per actual name (List.erase removes the
first occurrence, matching each actual against at most one expected slot),
restricted to non-empty names, folded with renderNext. -/
def claimMissingNames (expected : List String) (actual : List String) : Option String :=
  ((actual.foldl (fun e a => e.erase a) expected).filter (fun s => s != "")).foldl
    renderNext none

/-! ### visitUnknownAtRule -/

/-- LintVisitor.visitUnknownAtRule.  The at-rule node's first child is
given as its node id and literal text (none when the node has no child).
Returns the emitted markers and the traversal's descend flag. -/
def visitUnknownAtRule (cdm : CSSDataManager) (sev : RuleId → Nat)
    (atRuleName : Option (Nat × String)) : List Marker × Bool :=
  match atRuleName with
  | none => ([], false)
  | some (id, text) =>
    if cdm.getAtDirective text then ([], false)
    else ([⟨id, RuleId.unknownAtRules, sev RuleId.unknownAtRules,
            some ("Unknown at rule " ++ text)⟩], true)

/-! ### validateKeyframes / completeValidations -/

/-- LintVisitor.validateKeyframes: iterate the keyframes grouping index,
compute the needsStandard flag of each group and skip consistent groups;
the loop body contains no marker emission, so the accumulated warnings are
threaded through unchanged. -/
def validateKeyframes (keyframes : List (String × RootEntry))
    (warnings : List Marker) : List Marker × Bool :=
  (keyframes.foldl
    (fun ws entry =>
      let actual := entry.2.names
      let needsStandard := !(actual.contains "@keyframes")
      if !needsStandard && (actual.length == 1) then ws else ws)
    warnings, true)

/-- LintVisitor.completeValidations: runs validateKeyframes. -/
def completeValidations (keyframes : List (String × RootEntry))
    (warnings : List Marker) : List Marker × Bool :=
  validateKeyframes keyframes warnings

/-! ### visitHexColorValue -/

/-- LintVisitor.visitHexColorValue: flag when the node's total length is
none of 9, 7, 5, 4; never descend. -/
def visitHexColorValue (sev : RuleId → Nat) (nodeId : Nat) (length : Nat) :
    List Marker × Bool :=
  if length ≠ 9 ∧ length ≠ 7 ∧ length ≠ 5 ∧ length ≠ 4 then
    ([⟨nodeId, RuleId.hexColorLength, sev RuleId.hexColorLength, none⟩], false)
  else ([], false)

/-! ### Property elements and the duplicate-declarations check -/

/-- The per-declaration property element of lintUtil.Element, reduced to the
data the lint checks read: the declaration node id, the id of its property
sub-node, the normalized full property name, the text spanned by the value
node (none when getValue() is null), and the structural facts probed by
isCSSDeclaration. -/
structure Element where
  node : Nat
  propertyNode : Nat
  fullPropertyName : String
  value : Option String
  hasProperty : Bool
  identHasInterpolation : Bool
  deriving DecidableEq

/-- LintVisitor.isCSSDeclaration: a declaration with a value, a property
and a non-interpolated identifier. -/
def isCSSDeclaration (d : Element) : Bool :=
  d.value.isSome && d.hasProperty && !d.identHasInterpolation

/-- LintVisitor.fetch: the elements of the table whose full property name
is s, in table order. -/
def fetch (input : List Element) (s : String) : List Element :=
  input.filter (fun e => e.fullPropertyName == s)

/-- The body of the duplicate-declarations loop of LintVisitor.visitRuleSet
for one element: skip background and user-declared valid names, skip values
starting with a dash, and otherwise flag the element once per other
same-named element whose value does not start with a dash.  Object identity
of elements (the !== check of the source) is element inequality; in a real
property table every element wraps a distinct declaration node. -/
def dupEmit (valid : String → Bool) (sev : RuleId → Nat) (table : List Element)
    (element : Element) : List Marker :=
  if element.fullPropertyName ≠ "background" ∧ valid element.fullPropertyName = false then
    match element.value with
    | some v =>
      if firstCharIs v '-' = false then
        let elements := fetch table element.fullPropertyName
        if elements.length > 1 then
          elements.flatMap (fun ek =>
            match ek.value with
            | some vk =>
              if firstCharIs vk '-' = false ∧ ek ≠ element then
                [⟨element.node, RuleId.duplicateDeclarations,
                  sev RuleId.duplicateDeclarations, none⟩]
              else []
            | none => [])
        else []
      else []
    | none => []
  else []

/-- The duplicate-declarations section of LintVisitor.visitRuleSet: the
outer loop over the property table, markers in emission order. -/
def duplicateDeclarationsCheck (valid : String → Bool) (sev : RuleId → Nat)
    (table : List Element) : List Marker :=
  table.flatMap (dupEmit valid sev table)

/-- True when the element's value text exists and does not begin with a
dash, the condition both duplicate-declaration loops test on values. -/
def valueOkay (e : Element) : Bool :=
  match e.value with
  | some v => !(firstCharIs v '-')
  | none => false

/-! ### Unknown-property / vendor-specific completeness check -/

/-- LintVisitor.prefixes. -/
def prefixes : List String := ["-s2-"]

/-- Modelled from the spec: Declaration.getNonPrefixedPropertyName of the
parser (cssNodes.ts is not under src/) de-prefixes a vendor-prefixed name,
"a de-prefixed property name" keyed by its root; for a name starting with
a dash the root is what follows the next dash. -/
def getNonPrefixedPropertyName (name : String) : String :=
  match name.data with
  | '-' :: rest =>
    match dropThroughDash rest with
    | some suffixChars => String.mk suffixChars
    | none => name
  | _ => name
where
  dropThroughDash : List Char → Option (List Char)
    | [] => none
    | c :: cs => if c = '-' then some cs else dropThroughDash cs

/-- The state threaded through the per-declaration loop of the
unknown/vendor-specific section of LintVisitor.visitRuleSet. -/
structure VendorState where
  markers : List Marker
  map : List (String × RootEntry)
  containsUnknowns : Bool

/-- The body of the per-declaration loop of the unknown/vendor-specific
section of LintVisitor.visitRuleSet. -/
def processDecl (cdm : CSSDataManager) (valid : String → Bool) (sev : RuleId → Nat)
    (st : VendorState) (element : Element) : VendorState :=
  if isCSSDeclaration element then
    let name := element.fullPropertyName
    if firstCharIs name '-' then
      if secondCharIs name '-' then st
      else
        let markers1 :=
          if !cdm.isKnownProperty name && !valid name then
            st.markers ++ [⟨element.propertyNode, RuleId.unknownVendorSpecificProperty,
              sev RuleId.unknownVendorSpecificProperty, none⟩]
          else st.markers
        { st with
          markers := markers1
          map := addToMap st.map (getNonPrefixedPropertyName name) name
            (some element.propertyNode) }
    else
      let isHack := firstCharIs name '*' || firstCharIs name '_'
      let markers1 :=
        if isHack then
          st.markers ++ [⟨element.propertyNode, RuleId.ieStarHack,
            sev RuleId.ieStarHack, none⟩]
        else st.markers
      let name2 := if isHack then strTail name else name
      let markers2 :=
        if !cdm.isKnownProperty name && !cdm.isKnownProperty name2 && !valid name2 then
          markers1 ++ [⟨element.propertyNode, RuleId.unknownProperty,
            sev RuleId.unknownProperty,
            some ("Unknown property: \x27" ++ name ++ "\x27")⟩]
        else markers1
      { st with markers := markers2, map := addToMap st.map name2 name2 none }
  else { st with containsUnknowns := true }

/-- The per-declaration loop of the unknown/vendor-specific section. -/
def vendorPhase1 (cdm : CSSDataManager) (valid : String → Bool) (sev : RuleId → Nat)
    (table : List Element) : VendorState :=
  table.foldl (processDecl cdm valid sev) ⟨[], [], false⟩

/-- The completion pass over the suffix grouping index of the
unknown/vendor-specific section of LintVisitor.visitRuleSet. -/
def vendorPhase2 (cdm : CSSDataManager) (sev : RuleId → Nat)
    (map : List (String × RootEntry)) : List Marker :=
  map.flatMap (fun entry =>
    let suffix := entry.1
    let actual := entry.2.names
    let needsStandard := cdm.isStandardProperty suffix && !(actual.contains suffix)
    if !needsStandard && (actual.length == 1) then []
    else
      let expected := prefixes.filterMap (fun q =>
        if cdm.isStandardProperty (q ++ suffix) then some (q ++ suffix) else none)
      let missingVendorSpecific := getMissingNames expected actual
      if missingVendorSpecific.isSome || needsStandard then
        entry.2.nodes.flatMap (fun n =>
          (if needsStandard then
            [⟨n, RuleId.includeStandardProperty, sev RuleId.includeStandardProperty,
              some ("Also define the standard property \x27" ++ suffix ++
                "\x27 for compatibility")⟩]
          else []) ++
          (match missingVendorSpecific with
          | some ms =>
            [⟨n, RuleId.allVendorPrefixes, sev RuleId.allVendorPrefixes,
              some ("Always include all vendor specific properties: Missing: " ++ ms)⟩]
          | none => []))
      else [])

/-- The unknown-property and vendor-specific completeness section of
LintVisitor.visitRuleSet: skipped for :export blocks, per-declaration loop,
then the completion pass unless some declaration was not analyzable. -/
def vendorCheck (cdm : CSSDataManager) (valid : String → Bool) (sev : RuleId → Nat)
    (isExportBlock : Bool) (table : List Element) : List Marker :=
  if isExportBlock then []
  else
    let st := vendorPhase1 cdm valid sev table
    st.markers ++ (if st.containsUnknowns then [] else vendorPhase2 cdm sev st.map)

/-! ### visitFunction: color-function argument count -/

/-- The node-type tags needed by the color-function argument count. -/
inductive NodeKind where
  | binaryExpression
  | nodelist
  | numericValue
  | otherKind
  deriving DecidableEq

/-- A syntax subtree: a type tag and the child subtrees in document order.
Modelled from the spec: the parser's node type (cssNodes.ts is not under
src/) is an opaque tree with a type tag and children. -/
inductive STree where
  | node (kind : NodeKind) (children : List STree)

mutual
/-- The counting visitor LintVisitor.visitFunction passes to
getArguments().accept: visiting a binary-expression node increments the
count and returns false (its children are not visited); every other node
returns true, so its children are visited in order.  Modelled from the
spec: accept (cssNodes.ts is not under src/) calls the visitor on the node
and recurses into the children exactly when the visitor returned true. -/
def countArgsVisit : STree → Nat → Nat
  | STree.node k cs, acc =>
    if k = NodeKind.binaryExpression then acc + 1 else countArgsVisitList cs acc

/-- countArgsVisit over a child list, left to right. -/
def countArgsVisitList : List STree → Nat → Nat
  | [], acc => acc
  | c :: cs, acc => countArgsVisitList cs (countArgsVisit c acc)
end

/-- LintVisitor.visitFunction: lowercase the function's name, look up the
expected argument count (-1 when the name is not a color function), count
binary-expression nodes under the argument list, and flag the function
node on a mismatch.  Always returns true (descend). -/
def visitFunction (sev : RuleId → Nat) (nodeId : Nat) (name : String)
    (arguments : STree) : List Marker × Bool :=
  let fnName := strLower name
  let expectedAttrCount : Int :=
    if fnName = "rgb(" ∨ fnName = "hsl(" then 3
    else if fnName = "rgba(" ∨ fnName = "hsla(" then 4
    else -1
  if expectedAttrCount ≠ -1 then
    let actualAttrCount := countArgsVisit arguments 0
    if (actualAttrCount : Int) ≠ expectedAttrCount then
      ([⟨nodeId, RuleId.argsInColorFunction, sev RuleId.argsInColorFunction, none⟩], true)
    else ([], true)
  else ([], true)

/-! ### visitNumericValue: zero with unit -/

/-- The ancestor-chain data visitNumericValue reads: for each ancestor of
the numeric value node, listed nearest first, whether it is a function
(with its name), a declaration (whether getValue() is non-null, and its
full property name), or anything else. -/
inductive AncNode where
  | func (name : String)
  | decl (hasValue : Bool) (fullPropertyName : String)
  | otherAnc
  deriving DecidableEq

/-- Modelled from the spec: node.findParent(NodeType.Function) of the
parser (cssNodes.ts is not under src/) walks the parent chain and returns
the nearest enclosing node of the requested type; here, the nearest
enclosing function's name. -/
def findParentFunc : List AncNode → Option String
  | [] => none
  | AncNode.func n :: _ => some n
  | _ :: rest => findParentFunc rest

/-- Modelled from the spec: the nearest enclosing declaration's data, as
node.findParent(NodeType.Declaration) returns it. -/
def findParentDecl : List AncNode → Option (Bool × String)
  | [] => none
  | AncNode.decl hv n :: _ => some (hv, n)
  | _ :: rest => findParentDecl rest

/-- The numeric value node's parsed data, as NumericValue.getValue()
returns it: the parsed number (parseFloat of the literal, modelled as an
exact rational; the check compares it with 0.0) and the unit text. -/
structure NumericValueData where
  value : ℚ
  unit : Option String
  deriving DecidableEq

/-- LintVisitor.visitNumericValue: exempt when the nearest enclosing
function is calc; otherwise, inside a declaration that has a value, flag
an exactly-zero number carrying a recognized length unit unless the
declaration's full property name is user-declared valid.  lengthUnits is
the recognized length-unit list (languageFacts.units.length, an external
collaborator).  Always returns true. -/
def visitNumericValue (lengthUnits : List String) (valid : String → Bool)
    (sev : RuleId → Nat) (ancestors : List AncNode) (nodeId : Nat)
    (val : NumericValueData) : List Marker × Bool :=
  if findParentFunc ancestors = some "calc" then ([], true)
  else
    match findParentDecl ancestors with
    | none => ([], true)
    | some (hasValue, fullPropertyName) =>
      if hasValue = false then ([], true)
      else
        match val.unit with
        | none => ([], true)
        | some u =>
          if lengthUnits.contains (strLower u) = false then ([], true)
          else if val.value = 0 ∧ valid fullPropertyName = false then
            ([⟨nodeId, RuleId.zeroWithUnit, sev RuleId.zeroWithUnit, none⟩], true)
          else ([], true)

/-! ### Helper lemmas -/

theorem nullFirst_eq_rec (clone : List (Option String)) (a : String) :
    nullFirst clone a = nullFirstRec clone a := by
  induction clone with
  | nil => rfl
  | cons x xs ih =>
    by_cases hx : x = some a
    · subst hx
      simp [nullFirst, nullFirstRec, List.indexOf_cons]
    · have hbeq : (x == some a) = false := by
        simpa using hx
      simp only [nullFirst, nullFirstRec, List.indexOf_cons, hbeq, cond_false, if_neg hx]
      simp only [nullFirst] at ih
      by_cases hk : xs.indexOf (some a) = xs.length
      · simp [hk] at ih ⊢
        exact ih
      · have hk2 : xs.indexOf (some a) + 1 ≠ xs.length + 1 := by omega
        simp [List.length_cons, hk, hk2, List.set_cons_succ] at ih ⊢
        exact ih

theorem filterMap_nullFirstRec (clone : List (Option String)) (a : String) :
    (nullFirstRec clone a).filterMap id = (clone.filterMap id).erase a := by
  induction clone with
  | nil => rfl
  | cons x xs ih =>
    cases x with
    | none => simpa [nullFirstRec] using ih
    | some b =>
      by_cases hb : b = a
      · subst hb
        simp [nullFirstRec, List.filterMap_cons]
      · have herase : ((b :: List.filterMap id xs).erase a) =
            b :: (List.filterMap id xs).erase a :=
          List.erase_cons_tail (by simpa using hb)
        simp [nullFirstRec, hb, List.filterMap_cons, herase, ih]

theorem filterMap_foldl_nullFirst (A : List String) :
    ∀ clone : List (Option String),
      (A.foldl nullFirst clone).filterMap id =
        A.foldl (fun e a => e.erase a) (clone.filterMap id) := by
  induction A with
  | nil => intro clone; rfl
  | cons a as ih =>
    intro clone
    simp only [List.foldl_cons]
    rw [ih, nullFirst_eq_rec, filterMap_nullFirstRec]

theorem foldl_renderStep_filterMap (clone : List (Option String)) :
    ∀ init : Option String,
      clone.foldl renderStep init =
        (clone.filterMap id).foldl
          (fun r s => if s = "" then r else renderNext r s) init := by
  induction clone with
  | nil => intro init; rfl
  | cons x xs ih =>
    intro init
    cases x with
    | none => simpa [renderStep] using ih init
    | some s =>
      simp only [List.foldl_cons, List.filterMap_cons, id_eq]
      rw [ih]
      congr 1

theorem foldl_skipEmpty_filter (l : List String) :
    ∀ init : Option String,
      l.foldl (fun r s => if s = "" then r else renderNext r s) init =
        (l.filter (fun s => s != "")).foldl renderNext init := by
  induction l with
  | nil => intro init; rfl
  | cons s ls ih =>
    intro init
    by_cases hs : s = ""
    · subst hs
      simpa using ih init
    · simp [List.foldl_cons, List.filter_cons, hs, ih]

theorem filterMap_id_map_some (E : List String) : (E.map some).filterMap id = E := by
  induction E with
  | nil => rfl
  | cons e es ih => simp [List.filterMap_cons, ih]

/-! ### Claim theorems -/

/-- C1 counterexample: with a knowledge base that recognizes nothing, the
visit of an unknown-at-rule node with first-child text "@foo" returns
true (descend into children), refuting the claim that it returns false
after emitting the marker. -/
theorem unknownAtRule_counterexample :
    ((⟨fun _ => false, fun _ => false, fun _ => false⟩ : CSSDataManager).getAtDirective
      "@foo" = false) ∧
    (visitUnknownAtRule ⟨fun _ => false, fun _ => false, fun _ => false⟩ (fun _ => 2)
      (some (3, "@foo"))).2 = true := by
  decide

/-- C1 (amended): when the first child's text is not recognized by the
at-rule knowledge base, visitUnknownAtRule emits the unknown-at-rule
marker on the first child, carrying the literal text in the detail string,
and returns true (traversal descends into the children); when the text is
recognized, no marker is emitted and the visit returns false. -/
theorem unknownAtRule_marker_and_descend (cdm : CSSDataManager) (sev : RuleId → Nat)
    (id : Nat) (text : String) :
    (cdm.getAtDirective text = false →
      visitUnknownAtRule cdm sev (some (id, text)) =
        ([⟨id, RuleId.unknownAtRules, sev RuleId.unknownAtRules,
           some ("Unknown at rule " ++ text)⟩], true)) ∧
    (cdm.getAtDirective text = true →
      visitUnknownAtRule cdm sev (some (id, text)) = ([], false)) := by
  constructor <;> intro h <;> simp [visitUnknownAtRule, h]

/-- C1 witness: the amended theorem applied at a concrete unrecognized
at-rule. -/
theorem unknownAtRule_witness :
    ((⟨fun _ => false, fun _ => false, fun _ => false⟩ : CSSDataManager).getAtDirective
      "@foo" = false) ∧
    visitUnknownAtRule ⟨fun _ => false, fun _ => false, fun _ => false⟩ (fun _ => 2)
      (some (3, "@foo")) =
      ([⟨3, RuleId.unknownAtRules, 2, some ("Unknown at rule " ++ "@foo")⟩], true) :=
  ⟨rfl, (unknownAtRule_marker_and_descend ⟨fun _ => false, fun _ => false, fun _ => false⟩
    (fun _ => 2) 3 "@foo").1 rfl⟩

/-- C3 counterexample: for the expected list [""] and the empty actual
list, the expected name "" does not occur in the actual list, yet
getMissingNames returns none instead of the claimed quoted fold result
(the JavaScript truthiness test skips empty-string names). -/
theorem getMissingNames_empty_name_counterexample :
    getMissingNames [""] [] = none ∧
    "" ∈ ([""] : List String) ∧ "" ∉ ([] : List String) := by
  decide

/-- C3 (amended): getMissingNames equals the claimed description restricted
to non-empty names: it returns none exactly when every non-empty expected
name is matched by an actual occurrence (each actual occurrence matching
at most one expected slot), and otherwise the left fold, in expected
order, that quotes the first missing name alone and appends every further
missing name as "{prior}, '{next}'" — empty-string expected names are
always skipped. -/
theorem getMissingNames_eq_claimMissingNames (expected actual : List String) :
    getMissingNames expected actual = claimMissingNames expected actual := by
  unfold getMissingNames claimMissingNames
  rw [foldl_renderStep_filterMap, filterMap_foldl_nullFirst, filterMap_id_map_some,
    foldl_skipEmpty_filter]

/-- C5: visitHexColorValue flags the node exactly when its total length is
none of 4, 5, 7, 9, and never descends into the node. -/
theorem hexColorValue_iff (sev : RuleId → Nat) (id len : Nat) :
    ((visitHexColorValue sev id len).1 ≠ [] ↔ ¬(len = 4 ∨ len = 5 ∨ len = 7 ∨ len = 9)) ∧
    (visitHexColorValue sev id len).2 = false := by
  unfold visitHexColorValue
  by_cases h : len ≠ 9 ∧ len ≠ 7 ∧ len ≠ 5 ∧ len ≠ 4
  all_goals simp [h]
  all_goals omega

/-- C8: getEntries is a pure projection of the accumulated marker list: it
keeps exactly the markers whose resolved level intersects the mask, in
order (a sublist), and it is idempotent. -/
theorem getEntries_filter_spec (ws : List Marker) (M : Nat) :
    (getEntries ws M).Sublist ws ∧
    (∀ m : Marker, m ∈ getEntries ws M ↔ m ∈ ws ∧ m.level &&& M ≠ 0) ∧
    getEntries (getEntries ws M) M = getEntries ws M := by
  refine ⟨List.filter_sublist ws, ?_, ?_⟩
  · intro m
    simp [getEntries, List.mem_filter]
  · simp [getEntries, List.filter_filter]

/-- C9: the post-traversal completion step (completeValidations, i.e.
validateKeyframes) is pure bookkeeping: for every state of the keyframes
grouping index it returns the accumulated marker list unchanged and never
appends a diagnostic. -/
theorem validateKeyframes_preserves_markers :
    ∀ (kf : List (String × RootEntry)) (ws : List Marker),
      validateKeyframes kf ws = (ws, true) ∧ completeValidations kf ws = (ws, true) := by
  have key : ∀ (kf : List (String × RootEntry)) (ws : List Marker),
      validateKeyframes kf ws = (ws, true) := by
    intro kf
    unfold validateKeyframes
    induction kf with
    | nil => intro ws; rfl
    | cons e rest ih =>
      intro ws
      simp only [ite_self] at ih ⊢
      simp only [List.foldl_cons]
      exact ih ws
  intro kf ws
  exact ⟨key kf ws, key kf ws⟩

/-- C2: in a block holding the two genuine declarations -s2-foo: 1 and
foo: 1, with -s2-foo a recognized standard-property spelling, the
vendor-completeness section emits no missing-standard-property and no
all-vendor-prefixes marker; in a block holding only -s2-foo: 1, with foo
a recognized standard property, it emits exactly one
missing-standard-property marker, attached to the -s2-foo declaration's
property node, and no all-vendor-prefixes marker. -/
theorem vendorCheck_s2foo_scenarios :
    ((⟨fun s => s == "-s2-foo" || s == "foo", fun s => s == "-s2-foo" || s == "foo",
        fun _ => false⟩ : CSSDataManager).isStandardProperty "-s2-foo" = true) ∧
    ((⟨fun s => s == "-s2-foo" || s == "foo", fun s => s == "-s2-foo" || s == "foo",
        fun _ => false⟩ : CSSDataManager).isStandardProperty "foo" = true) ∧
    (vendorCheck
        ⟨fun s => s == "-s2-foo" || s == "foo", fun s => s == "-s2-foo" || s == "foo",
          fun _ => false⟩
        (fun _ => false) (fun _ => 2) false
        [⟨1, 11, "-s2-foo", some "1", true, false⟩, ⟨2, 12, "foo", some "1", true, false⟩]).countP
      (fun m => m.rule == RuleId.includeStandardProperty ||
        m.rule == RuleId.allVendorPrefixes) = 0 ∧
    (vendorCheck
        ⟨fun s => s == "-s2-foo" || s == "foo", fun s => s == "-s2-foo" || s == "foo",
          fun _ => false⟩
        (fun _ => false) (fun _ => 2) false
        [⟨1, 11, "-s2-foo", some "1", true, false⟩]).countP
      (fun m => m.rule == RuleId.includeStandardProperty && m.node == 11) = 1 ∧
    (vendorCheck
        ⟨fun s => s == "-s2-foo" || s == "foo", fun s => s == "-s2-foo" || s == "foo",
          fun _ => false⟩
        (fun _ => false) (fun _ => 2) false
        [⟨1, 11, "-s2-foo", some "1", true, false⟩]).countP
      (fun m => m.rule == RuleId.includeStandardProperty) = 1 ∧
    (vendorCheck
        ⟨fun s => s == "-s2-foo" || s == "foo", fun s => s == "-s2-foo" || s == "foo",
          fun _ => false⟩
        (fun _ => false) (fun _ => 2) false
        [⟨1, 11, "-s2-foo", some "1", true, false⟩]).countP
      (fun m => m.rule == RuleId.allVendorPrefixes) = 0 := by
  decide

/-- C4: in a block of color: red and color: blue (property not background,
not user-declared valid, neither value starting with a dash) both
declaration nodes are flagged as duplicate declarations, once each; with
color: red and color: -blue no duplicate marker is emitted at all; and a
block holding a single declaration — whose only comparison partner would
be itself — never produces a duplicate marker. -/
theorem duplicateDeclarations_scenarios :
    duplicateDeclarationsCheck (fun _ => false) (fun _ => 2)
        [⟨1, 11, "color", some "red", true, false⟩,
         ⟨2, 12, "color", some "blue", true, false⟩] =
      [⟨1, RuleId.duplicateDeclarations, 2, none⟩,
       ⟨2, RuleId.duplicateDeclarations, 2, none⟩] ∧
    duplicateDeclarationsCheck (fun _ => false) (fun _ => 2)
        [⟨1, 11, "color", some "red", true, false⟩,
         ⟨2, 12, "color", some "-blue", true, false⟩] = [] ∧
    (∀ (valid : String → Bool) (sev : RuleId → Nat) (e : Element),
      duplicateDeclarationsCheck valid sev [e] = []) := by
  refine ⟨by decide, by decide, ?_⟩
  intro valid sev e
  obtain ⟨n, pn, name, val, hp, ii⟩ := e
  have hf : fetch [⟨n, pn, name, val, hp, ii⟩] name = [⟨n, pn, name, val, hp, ii⟩] := by
    simp [fetch]
  simp only [duplicateDeclarationsCheck, List.flatMap_cons, List.flatMap_nil,
    List.append_nil, dupEmit, hf]
  cases val <;> simp

theorem visitFunction_flags (sev : RuleId → Nat) (id : Nat) (name : String)
    (args : STree) (k : Nat)
    (hk : (if strLower name = "rgb(" ∨ strLower name = "hsl(" then (3 : Int)
      else if strLower name = "rgba(" ∨ strLower name = "hsla(" then 4 else -1) = (k : Int)) :
    (visitFunction sev id name args).1 ≠ [] ↔ countArgsVisit args 0 ≠ k := by
  simp only [visitFunction]
  rw [hk]
  rw [if_pos (by omega : (k : Int) ≠ -1)]
  by_cases hc : (countArgsVisit args 0 : Int) ≠ (k : Int)
  · rw [if_pos hc]
    simp only [List.cons_ne_nil, ne_eq, not_false_eq_true, true_iff]
    omega
  · rw [if_neg hc]
    simp only [ne_eq, not_true_eq_false, false_iff, not_not]
    omega

/-- C6: visitFunction counts binary-expression nodes in the argument list
(a binary-expression node counts once and its contents are not explored
further) and flags the function node exactly when the count differs from 3
for rgb( and hsl( and from 4 for rgba( and hsla(; concretely, three
binary-expression arguments pass for rgb(, two fail for rgb(, and three
fail for rgba(. -/
theorem visitFunction_colorArgs :
    (∀ (sev : RuleId → Nat) (id : Nat) (args : STree),
      ((visitFunction sev id "rgb(" args).1 ≠ [] ↔ countArgsVisit args 0 ≠ 3)) ∧
    (∀ (sev : RuleId → Nat) (id : Nat) (args : STree),
      ((visitFunction sev id "hsl(" args).1 ≠ [] ↔ countArgsVisit args 0 ≠ 3)) ∧
    (∀ (sev : RuleId → Nat) (id : Nat) (args : STree),
      ((visitFunction sev id "rgba(" args).1 ≠ [] ↔ countArgsVisit args 0 ≠ 4)) ∧
    (∀ (sev : RuleId → Nat) (id : Nat) (args : STree),
      ((visitFunction sev id "hsla(" args).1 ≠ [] ↔ countArgsVisit args 0 ≠ 4)) ∧
    (∀ (cs : List STree) (acc : Nat),
      countArgsVisit (STree.node NodeKind.binaryExpression cs) acc = acc + 1) ∧
    (visitFunction (fun _ => 2) 7 "rgb("
      (STree.node NodeKind.nodelist
        [STree.node NodeKind.binaryExpression [STree.node NodeKind.numericValue []],
         STree.node NodeKind.binaryExpression [STree.node NodeKind.numericValue []],
         STree.node NodeKind.binaryExpression [STree.node NodeKind.numericValue []]])).1 =
      [] ∧
    (visitFunction (fun _ => 2) 7 "rgb("
      (STree.node NodeKind.nodelist
        [STree.node NodeKind.binaryExpression [STree.node NodeKind.numericValue []],
         STree.node NodeKind.binaryExpression [STree.node NodeKind.numericValue []]])).1 =
      [⟨7, RuleId.argsInColorFunction, 2, none⟩] ∧
    (visitFunction (fun _ => 2) 7 "rgba("
      (STree.node NodeKind.nodelist
        [STree.node NodeKind.binaryExpression [STree.node NodeKind.numericValue []],
         STree.node NodeKind.binaryExpression [STree.node NodeKind.numericValue []],
         STree.node NodeKind.binaryExpression [STree.node NodeKind.numericValue []]])).1 =
      [⟨7, RuleId.argsInColorFunction, 2, none⟩] := by
  refine ⟨fun sev id args => visitFunction_flags sev id "rgb(" args 3 (by decide),
    fun sev id args => visitFunction_flags sev id "hsl(" args 3 (by decide),
    fun sev id args => visitFunction_flags sev id "rgba(" args 4 (by decide),
    fun sev id args => visitFunction_flags sev id "hsla(" args 4 (by decide),
    ?_, by decide, by decide, by decide⟩
  intro cs acc
  simp [countArgsVisit]

/-- C7: visitNumericValue flags a numeric value exactly when its nearest
enclosing function (if any) is not calc, its nearest enclosing declaration
has a value and is not user-declared valid, its unit is a recognized
length unit, and its parsed number is exactly zero; concretely 0px in a
plain declaration is flagged and 0px directly inside a calc argument is
not. -/
theorem visitNumericValue_zeroWithUnit :
    (∀ (lengthUnits : List String) (valid : String → Bool) (sev : RuleId → Nat)
        (anc : List AncNode) (id : Nat) (val : NumericValueData),
      ((visitNumericValue lengthUnits valid sev anc id val).1 ≠ [] ↔
        (findParentFunc anc ≠ some "calc" ∧
         (∃ pname, findParentDecl anc = some (true, pname) ∧ valid pname = false) ∧
         (∃ u, val.unit = some u ∧ lengthUnits.contains (strLower u) = true) ∧
         val.value = 0))) ∧
    (visitNumericValue ["px"] (fun _ => false) (fun _ => 2) [AncNode.decl true "width"] 3
      ⟨0, some "px"⟩).1 = [⟨3, RuleId.zeroWithUnit, 2, none⟩] ∧
    (visitNumericValue ["px"] (fun _ => false) (fun _ => 2)
      [AncNode.func "calc", AncNode.decl true "width"] 3 ⟨0, some "px"⟩).1 = [] := by
  refine ⟨?_, by decide, by decide⟩
  intro lengthUnits valid sev anc id val
  simp only [visitNumericValue]
  by_cases hc : findParentFunc anc = some "calc"
  · simp [hc]
  · rw [if_neg hc]
    cases hd : findParentDecl anc with
    | none => simp [hc]
    | some p =>
      obtain ⟨hv, pname⟩ := p
      cases hv with
      | false => simp [hc]
      | true =>
        cases hu : val.unit with
        | none => simp [hc, hu]
        | some u =>
          by_cases hlen : lengthUnits.contains (strLower u) = false
          · have hnot : strLower u ∉ lengthUnits := by simpa using hlen
            simp [hc, hu, hlen, hnot]
          · have hlen2 : lengthUnits.contains (strLower u) = true := by
              cases h2 : lengthUnits.contains (strLower u) with
              | false => exact absurd h2 hlen
              | true => rfl
            have hmem : strLower u ∈ lengthUnits := by simpa using hlen2
            by_cases hz : val.value = 0
            · by_cases hvp : valid pname = false
              · simp [hc, hu, hlen2, hmem, hz, hvp]
              · simp [hc, hu, hlen2, hmem, hz, hvp]
            · simp [hc, hu, hlen2, hmem, hz]

theorem valueOkay_iff (x : Element) :
    valueOkay x = true ↔ ∃ v, x.value = some v ∧ firstCharIs v '-' = false := by
  cases hx : x.value with
  | none => simp [valueOkay, hx]
  | some v => simp [valueOkay, hx]

theorem dupEmit_node (valid : String → Bool) (sev : RuleId → Nat)
    (table : List Element) (x : Element) :
    ∀ m ∈ dupEmit valid sev table x, m.node = x.node := by
  intro m hm
  simp only [dupEmit] at hm
  split at hm
  · split at hm
    · split at hm
      · split at hm
        · simp only [List.mem_flatMap] at hm
          obtain ⟨ek, _, hmem⟩ := hm
          split at hmem
          · split at hmem
            · simp at hmem
              rw [hmem]
            · simp at hmem
          · simp at hmem
        · simp at hm
      · simp at hm
    · simp at hm
  · simp at hm

theorem sum_map_eq_of_unique {α : Type} [DecidableEq α] (l : List α) (g : α → Nat)
    (e : α) (hmem : e ∈ l) (hcount : l.count e = 1)
    (hzero : ∀ x ∈ l, x ≠ e → g x = 0) : (l.map g).sum = g e := by
  induction l with
  | nil => cases hmem
  | cons a rest ih =>
    by_cases ha : a = e
    · subst ha
      rw [List.count_cons_self] at hcount
      have hrest : rest.count a = 0 := by omega
      have hnot : a ∉ rest := by
        rw [← List.count_pos_iff]
        omega
      have hall : ∀ x ∈ rest, g x = 0 := by
        intro x hx
        refine hzero x (List.mem_cons_of_mem _ hx) ?_
        intro hxe
        exact hnot (hxe ▸ hx)
      have hsum : (rest.map g).sum = 0 := by
        apply List.sum_eq_zero
        intro n hn
        simp only [List.mem_map] at hn
        obtain ⟨x, hx, hgx⟩ := hn
        rw [← hgx]
        exact hall x hx
      simp [hsum]
    · have hmem2 : e ∈ rest := by
        rcases List.mem_cons.mp hmem with h | h
        · exact absurd h.symm ha
        · exact h
      have hcount2 : rest.count e = 1 := by
        rw [List.count_cons] at hcount
        simp [ha] at hcount
        omega
      have hga : g a = 0 := hzero a (List.mem_cons_self a rest) ha
      rw [List.map_cons, List.sum_cons, hga,
        ih hmem2 hcount2 (fun x hx hxe => hzero x (List.mem_cons_of_mem _ hx) hxe)]
      omega

theorem sum_map_indicator_count_zero {α : Type} [DecidableEq α] (l : List α) (e : α)
    (h : l.count e = 0) :
    (l.map (fun x => if x = e then 0 else 1)).sum = l.length := by
  induction l with
  | nil => rfl
  | cons a rest ih =>
    rw [List.count_cons] at h
    by_cases ha : a = e
    · simp [ha] at h
    · simp only [List.map_cons, List.sum_cons, if_neg ha, List.length_cons]
      have : rest.count e = 0 := by simp [ha] at h; omega
      rw [ih this]
      omega

theorem sum_map_indicator_count_one {α : Type} [DecidableEq α] (l : List α) (e : α)
    (h : l.count e = 1) :
    (l.map (fun x => if x = e then 0 else 1)).sum = l.length - 1 := by
  induction l with
  | nil => simp at h
  | cons a rest ih =>
    by_cases ha : a = e
    · subst ha
      rw [List.count_cons_self] at h
      have hrest : rest.count a = 0 := by omega
      simp [sum_map_indicator_count_zero rest a hrest]
    · have hrest : rest.count e = 1 := by
        rw [List.count_cons] at h
        simp [ha] at h
        omega
      have hlen : 1 ≤ rest.length := by
        have : e ∈ rest := by
          rw [← List.count_pos_iff, hrest]
          omega
        exact List.length_pos_of_mem this
      simp only [List.map_cons, List.sum_cons, if_neg ha, List.length_cons]
      rw [ih hrest]
      omega

/-- C10: in a declaration block whose property table holds n ≥ 2
declarations with the same full property name s (s not background, not
user-declared valid, every such declaration's value present and not
starting with a dash, declaration nodes pairwise distinct), every one of
those n declaration nodes receives exactly n - 1 duplicate-declarations
markers — one per other qualifying occurrence. -/
theorem duplicateDeclarations_count (valid : String → Bool) (sev : RuleId → Nat)
    (table : List Element) (s : String)
    (hbg : s ≠ "background") (hvalid : valid s = false)
    (hnodup : (table.map Element.node).Nodup)
    (hval : ∀ x ∈ table, x.fullPropertyName = s → valueOkay x = true)
    (hn : 2 ≤ (fetch table s).length) :
    ∀ e ∈ fetch table s,
      (duplicateDeclarationsCheck valid sev table).countP
        (fun m => m.node == e.node && m.rule == RuleId.duplicateDeclarations) =
      (fetch table s).length - 1 := by
  intro e he
  have he_tab : e ∈ table := (List.mem_filter.mp he).1
  have he_name : e.fullPropertyName = s := by
    have h2 := (List.mem_filter.mp he).2
    simpa using h2
  have htab_nodup : table.Nodup := List.Nodup.of_map _ hnodup
  have hinj : ∀ x ∈ table, ∀ y ∈ table, x.node = y.node → x = y := by
    intro x hx y hy hxy
    exact List.inj_on_of_nodup_map hnodup hx hy hxy
  set p : Marker → Bool :=
    fun m => m.node == e.node && m.rule == RuleId.duplicateDeclarations with hp
  have hcount_e : table.count e = 1 := List.count_eq_one_of_mem htab_nodup he_tab
  have hzero : ∀ x ∈ table, x ≠ e →
      (List.countP p ∘ dupEmit valid sev table) x = 0 := by
    intro x hx hxe
    simp only [Function.comp_apply]
    rw [List.countP_eq_zero]
    intro m hm
    have hmn := dupEmit_node valid sev table x m hm
    have hne : x.node ≠ e.node := fun hnn => hxe (hinj x hx e he_tab hnn)
    simp [hp, hmn, hne]
  rw [duplicateDeclarationsCheck, List.countP_flatMap,
    sum_map_eq_of_unique table (List.countP p ∘ dupEmit valid sev table) e he_tab
      hcount_e hzero]
  obtain ⟨v, hv_some, hv_fc⟩ := (valueOkay_iff e).mp (hval e he_tab he_name)
  have hcond : e.fullPropertyName ≠ "background" ∧ valid e.fullPropertyName = false := by
    rw [he_name]
    exact ⟨hbg, hvalid⟩
  have hlen : (fetch table e.fullPropertyName).length > 1 := by
    rw [he_name]
    omega
  have hemit : dupEmit valid sev table e =
      (fetch table e.fullPropertyName).flatMap (fun ek =>
        match ek.value with
        | some vk =>
          if firstCharIs vk '-' = false ∧ ek ≠ e then
            [⟨e.node, RuleId.duplicateDeclarations,
              sev RuleId.duplicateDeclarations, none⟩]
          else []
        | none => []) := by
    simp only [dupEmit, if_pos hcond, hv_some]
    rw [if_pos hv_fc, if_pos hlen]
  simp only [Function.comp_apply]
  rw [hemit, List.countP_flatMap, he_name]
  have hgroup_nodup : (fetch table s).Nodup := List.Nodup.filter _ htab_nodup
  have hgcount : (fetch table s).count e = 1 :=
    List.count_eq_one_of_mem hgroup_nodup he
  have hpoint : ∀ ek ∈ fetch table s,
      (List.countP p ∘ fun ek =>
        match ek.value with
        | some vk =>
          if firstCharIs vk '-' = false ∧ ek ≠ e then
            [⟨e.node, RuleId.duplicateDeclarations,
              sev RuleId.duplicateDeclarations, none⟩]
          else []
        | none => []) ek = (fun x => if x = e then 0 else 1) ek := by
    intro ek hek
    have hek_tab : ek ∈ table := (List.mem_filter.mp hek).1
    have hek_name : ek.fullPropertyName = s := by
      have h2 := (List.mem_filter.mp hek).2
      simpa using h2
    obtain ⟨vk, hvk, hfck⟩ := (valueOkay_iff ek).mp (hval ek hek_tab hek_name)
    simp only [Function.comp_apply, hvk]
    by_cases hke : ek = e
    · rw [if_neg (by simp [hke]), if_pos hke]
      rfl
    · rw [if_pos ⟨hfck, hke⟩, if_neg hke]
      simp [hp]
  rw [List.map_congr_left hpoint, sum_map_indicator_count_one (fetch table s) e hgcount]

/-- C10 witness: the duplicate-count theorem applied to a concrete block
of three same-named declarations; each node gets exactly two markers. -/
theorem duplicateDeclarations_count_witness :
    ("color" ≠ "background") ∧
    ((fun (_ : String) => false) "color" = false) ∧
    (([⟨1, 11, "color", some "red", true, false⟩,
       ⟨2, 12, "color", some "blue", true, false⟩,
       ⟨3, 13, "color", some "green", true, false⟩] : List Element).map
        Element.node).Nodup ∧
    2 ≤ (fetch
      [⟨1, 11, "color", some "red", true, false⟩,
       ⟨2, 12, "color", some "blue", true, false⟩,
       ⟨3, 13, "color", some "green", true, false⟩] "color").length ∧
    (duplicateDeclarationsCheck (fun _ => false) (fun _ => 2)
        [⟨1, 11, "color", some "red", true, false⟩,
         ⟨2, 12, "color", some "blue", true, false⟩,
         ⟨3, 13, "color", some "green", true, false⟩]).countP
      (fun m => m.node == 1 && m.rule == RuleId.duplicateDeclarations) = 2 :=
  ⟨by decide, by decide, by decide, by decide,
    duplicateDeclarations_count (fun _ => false) (fun _ => 2)
      [⟨1, 11, "color", some "red", true, false⟩,
       ⟨2, 12, "color", some "blue", true, false⟩,
       ⟨3, 13, "color", some "green", true, false⟩] "color"
      (by decide) (by decide) (by decide) (by decide) (by decide)
      ⟨1, 11, "color", some "red", true, false⟩ (by decide)⟩
